import Mathlib

/-!
Shallow embedding of the page-break computation engine of
`src/plugin/pagebreaks.js` (html2pdf pagebreak plugin fork).

Pixel coordinates are modelled as `Int`; the JavaScript `%` operator on
numbers is truncated remainder, modelled by `Int.tmod`, and `Math.floor(a/b)`
on integers is floored division, modelled by `Int.fdiv`.  The real-valued
division `nPages = |bottom - top| / pxPageHeight` is modelled in `ℚ`.
The DOM is modelled as a rose tree; the platform layout engine
(`getBoundingClientRect`) is an oracle parameter `geom` mapping the current
tree and an element id to its rectangle.
-/

/-- Bounding client rectangle of an element: the `top` and `bottom` pixel
coordinates read by `el.getBoundingClientRect()`. -/
structure Rect where
  top : Int
  bottom : Int
deriving DecidableEq

/-- The computed-style fields read by the plugin (lines 126-135):
`breakBefore`/`pageBreakBefore`, `breakAfter`/`pageBreakAfter`,
`breakInside`/`pageBreakInside`, each a CSS value string (empty when unset). -/
structure Style where
  breakBefore : String
  pageBreakBefore : String
  breakAfter : String
  pageBreakAfter : String
  breakInside : String
  pageBreakInside : String
deriving DecidableEq

/-- The mode flags computed on lines 72-77 from the `mode` option. -/
structure Mode where
  avoidAll : Bool
  css : Bool
  legacy : Bool
deriving DecidableEq

/-- Line 72-77: `modeSrc.indexOf(...) !== -1` membership tests on the
concatenated mode list. -/
def modeOf (modeSrc : List String) : Mode :=
  ⟨modeSrc.contains "avoid-all", modeSrc.contains "css", modeSrc.contains "legacy"⟩

/-- The per-node pagebreak rule set `{before, after, avoid}` (line 117). -/
structure Rules where
  before : Bool
  after : Bool
  avoid : Bool
deriving DecidableEq

/-- Pointwise disjunction of two rule sets. -/
def Rules.orr (a b : Rules) : Rules :=
  ⟨a.before || b.before, a.after || b.after, a.avoid || b.avoid⟩

/-- Pointwise implication of rule sets: every flag set in `a` is set in `b`. -/
def Rules.le (a b : Rules) : Prop :=
  (a.before = true → b.before = true) ∧ (a.after = true → b.after = true) ∧
    (a.avoid = true → b.avoid = true)

/-- JavaScript `a || b` on style strings: the empty string is the only falsy
string value, so `a || b` yields `b` exactly when `a` is empty. -/
def jsOrS (a b : String) : String := if a = "" then b else a

/-- Line 129: the "forced break" CSS vocabulary. -/
def breakOpt : List String := ["always", "page", "left", "right"]

/-- Line 130: the "avoid" CSS vocabulary. -/
def avoidOpt : List String := ["avoid", "avoid-page"]

/-- Stage 1 of rule resolution (lines 117-121): initial rules from the
`legacy` and `avoidAll` modes; `isLegacy` is `legacyEls.indexOf(el) !== -1`. -/
def modeSource (mode : Mode) (isLegacy : Bool) : Rules :=
  ⟨false, mode.legacy && isLegacy, mode.avoidAll⟩

/-- Stage 2 of rule resolution (lines 124-136): computed-style break
properties, active only in `css` mode, with older-syntax fallback via `||`. -/
def cssSource (mode : Mode) (st : Style) : Rules :=
  if mode.css then
    ⟨breakOpt.contains (jsOrS st.breakBefore st.pageBreakBefore),
     breakOpt.contains (jsOrS st.breakAfter st.pageBreakAfter),
     avoidOpt.contains (jsOrS st.breakInside st.pageBreakInside)⟩
  else ⟨false, false, false⟩

/-- Stage 3 of rule resolution (lines 139-141): explicit selector-derived
membership, `select[key].indexOf(el) !== -1` for each key. -/
def selSource (selB selA selV : Bool) : Rules := ⟨selB, selA, selV⟩

/-- Lines 117-141: the full break-rule resolution for one element, merging
the mode/legacy initialisation, the css-mode computed styles, and the
explicit selections, in source order. -/
def resolveRules (mode : Mode) (isLegacy : Bool) (st : Style)
    (selB selA selV : Bool) : Rules :=
  let r : Rules := ⟨false, mode.legacy && isLegacy, mode.avoidAll⟩
  let r : Rules :=
    if mode.css then
      ⟨r.before || breakOpt.contains (jsOrS st.breakBefore st.pageBreakBefore),
       r.after || breakOpt.contains (jsOrS st.breakAfter st.pageBreakAfter),
       r.avoid || avoidOpt.contains (jsOrS st.breakInside st.pageBreakInside)⟩
    else r
  ⟨r.before || selB, r.after || selA, r.avoid || selV⟩

/-- Lines 172-181: the avoid-resolution step.  When `avoid` is set and
`before` is not, compute `startPage = floor(top / pxPageHeight)`,
`endPage = floor((bottom - 1) / pxPageHeight)` and
`nPages = |bottom - top| / pxPageHeight` (real division, modelled in `ℚ`),
and turn on `before` when the element straddles a boundary and spans at most
one page. -/
def avoidResolve (pxPageHeight : Int) (r : Rules) (rect : Rect) : Rules :=
  if r.avoid && !r.before then
    let startPage := Int.fdiv rect.top pxPageHeight
    let endPage := Int.fdiv (rect.bottom - 1) pxPageHeight
    let nPages : ℚ := |((rect.bottom - rect.top : Int) : ℚ)| / (pxPageHeight : ℚ)
    if endPage ≠ startPage ∧ nPages ≤ 1 then ⟨true, r.after, r.avoid⟩ else r
  else r

/-- Line 187: height of a `before` spacer, `pxPageHeight - (top % pxPageHeight)`
with JavaScript truncated remainder. -/
def beforePadHeight (pxPageHeight top : Int) : Int :=
  pxPageHeight - Int.tmod top pxPageHeight

/-- Line 156: height of a deferred `after` spacer,
`pxPageHeight - (bottom % pxPageHeight)` with JavaScript truncated remainder. -/
def afterPadHeight (pxPageHeight bottom : Int) : Int :=
  pxPageHeight - Int.tmod bottom pxPageHeight

/-- A node of the DOM subtree: either a pre-existing element (identified by
`id`, carrying its `uid` attribute once assigned, and its child list in
document order) or a spacer `div` inserted by the engine (characterised by its
computed pixel height, line 155-158 / 185-188). -/
inductive Node where
  | elem (id : Nat) (uid : Option String) (children : List Node)
  | spacer (height : Int)

/-- JavaScript `s.startsWith(pre)` (line 107): `pre` is a string-prefix of
`s`, decided on the underlying character lists. -/
def jsStartsWith (s pre : String) : Bool :=
  List.isPrefixOf pre.data s.data

mutual

/-- Lines 54-63, `addUIDRecursive`: set the `uid` attribute of `element` to
`uid`, then recursively tag each child with `uid + index` (string
concatenation of the zero-based child index). -/
def addUIDRecursive : Node → String → Node
  | .elem id _ cs, uid => .elem id (some uid) (addUIDChildren cs uid 0)
  | .spacer h, _ => .spacer h

/-- The `childrenArr.forEach((childElement, index) => ...)` recursion of
`addUIDRecursive`, threading the zero-based index. -/
def addUIDChildren : List Node → String → Nat → List Node
  | [], _, _ => []
  | c :: cs, uid, i => addUIDRecursive c (uid ++ toString i) :: addUIDChildren cs uid (i + 1)

end

/-- Line 96, `this.addUIDRecursive(root)`: the default parameter `uid = 0` is
coerced by `setAttribute` to the string `"0"`, so the root is tagged `"0"`. -/
def tagRoot (t : Node) : Node := addUIDRecursive t "0"

mutual

/-- Document-order (pre-order) list of the elements of a subtree, as
`(id, uid-attribute)` pairs; this is what `querySelectorAll('*')` on a node
yields for its descendants, plus the node itself at the head. -/
def elemsOf : Node → List (Nat × String)
  | .elem id u cs => (id, u.getD "") :: elemsOfList cs
  | .spacer _ => []

/-- `elemsOf` over a child list, concatenated in document order. -/
def elemsOfList : List Node → List (Nat × String)
  | [] => []
  | c :: cs => elemsOf c ++ elemsOfList cs

end

/-- Line 112, `els = root.querySelectorAll('*')`: all descendants of the
root, excluding the root itself, in document order — a static snapshot taken
before any spacer is inserted. -/
def visitedOf : Node → List (Nat × String)
  | .elem _ _ cs => elemsOfList cs
  | .spacer _ => []

mutual

/-- Does this child match the target element id?  Spacers carry no id and
never match. -/
def isElemId : Node → Nat → Bool
  | .elem id _ _, i => id == i
  | .spacer _, _ => false

/-- First-match (document order) insertion of `s` immediately before the
element with id `i`, modelling `el.parentNode.insertBefore(pad, el)`
(line 189).  Returns `none` when no element with that id occurs below `t`. -/
def insB (i : Nat) (s : Node) : Node → Option Node
  | .elem id u cs => (insBList i s cs).map (.elem id u)
  | .spacer _ => none

/-- `insB` over a sibling list: check each child, then its subtree, then the
later siblings — document order. -/
def insBList (i : Nat) (s : Node) : List Node → Option (List Node)
  | [] => none
  | c :: cs =>
    if isElemId c i then some (s :: c :: cs)
    else match insB i s c with
      | some c' => some (c' :: cs)
      | none => (insBList i s cs).map (c :: ·)

/-- First-match (document order) insertion of `s` immediately after the
element with id `i`, modelling `el.parentNode.insertBefore(pad, el.nextSibling)`
(line 160). -/
def insA (i : Nat) (s : Node) : Node → Option Node
  | .elem id u cs => (insAList i s cs).map (.elem id u)
  | .spacer _ => none

/-- `insA` over a sibling list, document order. -/
def insAList (i : Nat) (s : Node) : List Node → Option (List Node)
  | [] => none
  | c :: cs =>
    if isElemId c i then some (c :: s :: cs)
    else match insA i s c with
      | some c' => some (c' :: cs)
      | none => (insAList i s cs).map (c :: ·)

end

/-- Insert `s` immediately before the (first, in document order) element with
id `i`; the tree is unchanged when the element is absent. -/
def insertBeforeElem (t : Node) (i : Nat) (s : Node) : Node := (insB i s t).getD t

/-- Insert `s` immediately after the (first, in document order) element with
id `i`; the tree is unchanged when the element is absent. -/
def insertAfterElem (t : Node) (i : Nat) (s : Node) : Node := (insA i s t).getD t

mutual

/-- Number of spacer nodes in a subtree. -/
def spacerCount : Node → Nat
  | .elem _ _ cs => spacerCountList cs
  | .spacer _ => 1

/-- `spacerCount` over a child list. -/
def spacerCountList : List Node → Nat
  | [] => 0
  | c :: cs => spacerCount c + spacerCountList cs

end

mutual

/-- The heights of all spacer nodes in a subtree, in document order. -/
def spacerHeights : Node → List Int
  | .elem _ _ cs => spacerHeightsList cs
  | .spacer h => [h]

/-- `spacerHeights` over a child list. -/
def spacerHeightsList : List Node → List Int
  | [] => []
  | c :: cs => spacerHeights c ++ spacerHeightsList cs

end

mutual

/-- `true` when the subtree contains no spacer node (e.g. a freshly cloned
source document, before the engine has run). -/
def spacerFreeB : Node → Bool
  | .elem _ _ cs => spacerFreeList cs
  | .spacer _ => false

/-- `spacerFreeB` over a child list. -/
def spacerFreeList : List Node → Bool
  | [] => true
  | c :: cs => spacerFreeB c && spacerFreeList cs

end

mutual

/-- Remove every spacer node from a subtree, keeping the pre-existing
elements (with their uid attributes) in document order. -/
def stripSpacers : Node → Node
  | .elem id u cs => .elem id u (stripList cs)
  | .spacer h => .spacer h

/-- `stripSpacers` over a child list: drop spacer children, recurse into
element children. -/
def stripList : List Node → List Node
  | [] => []
  | .spacer _ :: cs => stripList cs
  | .elem id u gcs :: cs => .elem id u (stripList gcs) :: stripList cs

end

mutual

/-- Erase every uid attribute in a subtree. -/
def eraseUids : Node → Node
  | .elem id _ cs => .elem id none (eraseUidsList cs)
  | .spacer h => .spacer h

/-- `eraseUids` over a child list. -/
def eraseUidsList : List Node → List Node
  | [] => []
  | c :: cs => eraseUids c :: eraseUidsList cs

end

/-- The uid attribute of the root node of a tree (`none` for a spacer). -/
def rootUid : Node → Option String
  | .elem _ u _ => u
  | .spacer _ => none

/-- One entry of the `breakAfter` array (lines 99-101): `[uid, fn, executed]`.
The closure `fn` captures the owner element, so it is represented by the
owner's id: when invoked it re-reads the owner's current bounding rectangle
and inserts a spacer after the owner (lines 154-161). -/
structure Pending where
  uid : String
  owner : Nat
  fired : Bool
deriving DecidableEq

/-- The configuration of one render pass: page height, mode flags, the three
selector membership tests, legacy-marker membership, computed styles, and
the platform layout oracle `geom` giving each element's bounding rectangle
in the current (possibly spacer-extended) tree. -/
structure Config where
  pxPageHeight : Int
  mode : Mode
  legacyEl : Nat → Bool
  selBefore : Nat → Bool
  selAfter : Nat → Bool
  selAvoid : Nat → Bool
  style : Nat → Style
  geom : Node → Nat → Rect

/-- Lines 82-89: when `avoid-all` mode is active the explicit `avoid`
selector list is forced empty (`all ? [] : ...`), so `avoid` membership is
constantly false in that case. -/
def selAvoidEff (cfg : Config) (i : Nat) : Bool :=
  if cfg.mode.avoidAll then false else cfg.selAvoid i

/-- Mutable state threaded through the walk: the DOM tree (mutated by spacer
insertions) and the `breakAfter` array in insertion order. -/
structure PassState where
  tree : Node
  queue : List Pending

/-- Lines 104-109, `pendingBreakAfters(currentEl)`: the queued entries that
are not yet executed and whose owner uid is not a string-prefix of the
current element's uid, in reverse insertion order. -/
def pendingBreakAfters (queue : List Pending) (curUid : String) : List Pending :=
  ((queue.filter (fun p => !p.fired)).filter
      (fun p => !jsStartsWith curUid p.uid)).reverse

/-- Lines 144-147, tree effect: execute each due entry's closure in order,
each inserting after its owner a spacer of height
`pxPageHeight - bottom % pxPageHeight` computed from the owner's bounding
rectangle in the tree as it stands at that moment (line 156-160). -/
def flushTree (cfg : Config) (st : PassState) (curUid : String) : Node :=
  (pendingBreakAfters st.queue curUid).foldl
    (fun t p =>
      insertAfterElem t p.owner
        (Node.spacer (afterPadHeight cfg.pxPageHeight (cfg.geom t p.owner).bottom)))
    st.tree

/-- Lines 144-147, queue effect: mark every executed (due) entry as fired
(`arr[2] = true`). -/
def flushQueue (queue : List Pending) (curUid : String) : List Pending :=
  queue.map (fun p =>
    if !p.fired && !jsStartsWith curUid p.uid then { p with fired := true } else p)

/-- Lines 117-141 for the visited element `(i, uid)`: its resolved rule set
before avoid-resolution. -/
def resolvedRules (cfg : Config) (i : Nat) : Rules :=
  resolveRules cfg.mode (cfg.legacyEl i) (cfg.style i)
    (cfg.selBefore i) (cfg.selAfter i) (selAvoidEff cfg i)

/-- The element's bounding rectangle read at line 169: after the pending
break-afters have been flushed, but before this element's own `before`
spacer is inserted. -/
def visitRect (cfg : Config) (st : PassState) (i : Nat) (curUid : String) : Rect :=
  cfg.geom (flushTree cfg st curUid) i

/-- The rule set actually used for the `before` insertion: the resolved
rules after the avoid-resolution step of lines 172-181. -/
def finalRules (cfg : Config) (st : PassState) (i : Nat) (curUid : String) : Rules :=
  avoidResolve cfg.pxPageHeight (resolvedRules cfg i) (visitRect cfg st i curUid)

/-- Lines 113-192, `pagebreak_loop`, the body of the walk for one visited
element `(i, uid)`, in source order: resolve the rules, flush the due
pending break-afters, enqueue a new entry when `rules.after` holds, read the
bounding rectangle, run avoid-resolution, and insert the `before` spacer
when the final rules demand it. -/
def pagebreak_loop (cfg : Config) (st : PassState) (v : Nat × String) : PassState :=
  let i := v.1
  let uid := v.2
  let tree1 := flushTree cfg st uid
  let queue1 := flushQueue st.queue uid
  let queue2 :=
    if (resolvedRules cfg i).after then queue1 ++ [⟨uid, i, false⟩] else queue1
  let tree2 :=
    if (finalRules cfg st i uid).before then
      insertBeforeElem tree1 i
        (Node.spacer (beforePadHeight cfg.pxPageHeight (visitRect cfg st i uid).top))
    else tree1
  ⟨tree2, queue2⟩

/-- Lines 65-194, `toContainer_pagebreak`: tag the tree with uids, snapshot
the element list, and fold the per-element loop body over it starting from
an empty `breakAfter` array. -/
def toContainer_pagebreak (cfg : Config) (t : Node) : PassState :=
  (visitedOf (tagRoot t)).foldl (pagebreak_loop cfg) ⟨tagRoot t, []⟩

/-- The mutated DOM tree produced by one render pass. -/
def runTree (cfg : Config) (t : Node) : Node := (toContainer_pagebreak cfg t).tree

/-- Pointwise implication of mode flag sets: every mode enabled in `a` is
enabled in `b`. -/
def Mode.le (a b : Mode) : Prop :=
  (a.avoidAll = true → b.avoidAll = true) ∧ (a.css = true → b.css = true) ∧
    (a.legacy = true → b.legacy = true)

/-- A style with no break properties set. -/
def blankStyle : Style := ⟨"", "", "", "", "", ""⟩

/-- Pass configuration for the C1 scenario: no modes, element 1 in the
explicit `after` selection, page height 1000. -/
def cfgC1 : Config :=
  ⟨1000, modeOf [], fun _ => false, fun _ => false, fun i => i == 1,
    fun _ => false, fun _ => blankStyle, fun _ _ => ⟨0, 0⟩⟩

/-- C1 scenario tree: the `after`-marked element 1 contains element 2, and
the walk ends inside element 1's subtree. -/
def treeC1 : Node := .elem 0 none [.elem 1 none [.elem 2 none []]]

/-- Pass configuration for Scenario 1 of the spec (C3): mode `['css']`,
page height 1000, element 1 with computed style `break-after: always`
(the `page-break-after: always` equivalent) and bounding rectangle
(0, 300). -/
def cfgC3 : Config :=
  ⟨1000, modeOf ["css"], fun _ => false, fun _ => false, fun _ => false,
    fun _ => false, fun i => if i == 1 then ⟨"", "", "always", "", "", ""⟩ else blankStyle,
    fun _ i => if i == 1 then ⟨0, 300⟩ else ⟨0, 0⟩⟩

/-- C3 scenario tree: a container holding one element. -/
def treeC3 : Node := .elem 0 none [.elem 1 none []]

mutual

/-- First element with the given id in document order. -/
def findElem : Node → Nat → Option Node
  | .elem id u cs, i =>
    if id == i then some (.elem id u cs) else findElemList cs i
  | .spacer _, _ => none

/-- `findElem` over a child list. -/
def findElemList : List Node → Nat → Option Node
  | [], _ => none
  | c :: cs, i =>
    match findElem c i with
    | some s => some s
    | none => findElemList cs i

end

/-- Total height of the spacers currently inside the subtree rooted at the
element with id `i`. -/
def subtreeSpacerSum (t : Node) (i : Nat) : Int :=
  match findElem t i with
  | some s => (spacerHeights s).sum
  | none => 0

/-- Layout oracle for the C6 scenario: the inner element 2 has bottom 250;
the outer element 1 has bottom `300 +` the spacers currently inside its
subtree (inserting a spacer inside it pushes its bottom edge down). -/
def geomC6 (t : Node) (i : Nat) : Rect :=
  if i == 2 then ⟨0, 250⟩
  else if i == 1 then ⟨0, 300 + subtreeSpacerSum t 1⟩
  else ⟨0, 0⟩

/-- Pass configuration for the C6 scenario: elements 1 (outer) and 2
(inner) both in the explicit `after` selection, page height 1000. -/
def cfgC6 : Config :=
  ⟨1000, modeOf [], fun _ => false, fun _ => false,
    fun i => i == 1 || i == 2, fun _ => false, fun _ => blankStyle, geomC6⟩

/-- C6 scenario tree: outer element 1 contains inner element 2; element 4
follows element 1, so both pending entries become due at element 4's
visit. -/
def treeC6 : Node := .elem 0 none [.elem 1 none [.elem 2 none []], .elem 4 none []]

/-- Pass configuration for the C7 witness: element 1 in the explicit
`before` selection, bounding rectangle (900, 1300), page height 1000. -/
def cfgC7 : Config :=
  ⟨1000, modeOf [], fun _ => false, fun i => i == 1, fun _ => false,
    fun _ => false, fun _ => blankStyle,
    fun _ i => if i == 1 then ⟨900, 1300⟩ else ⟨0, 0⟩⟩

/-- Walk state for the C7 witness: the tagged one-element container with an
empty `breakAfter` array. -/
def stC7 : PassState := ⟨tagRoot treeC3, []⟩

/-- Pass configuration with no modes and no selections: the pass resolves
every rule set to all-false and inserts nothing. -/
def cfgC8 : Config :=
  ⟨1000, modeOf [], fun _ => false, fun _ => false, fun _ => false,
    fun _ => false, fun _ => blankStyle, fun _ _ => ⟨0, 0⟩⟩

/-- Pass configuration for the C10 witness: element 1 in the explicit
`before` selection, constant bounding rectangle (300, 500), page height
1000 — the inserted spacer has height `1000 - 300 % 1000 = 700`. -/
def cfgC10 : Config :=
  ⟨1000, modeOf [], fun _ => false, fun i => i == 1, fun _ => false,
    fun _ => false, fun _ => blankStyle, fun _ _ => ⟨300, 500⟩⟩

/-- Number of not-yet-executed entries in the `breakAfter` array. -/
def countUnfired (q : List Pending) : Nat := q.countP (fun p => !p.fired)

/-- Navigate a tree along a path of zero-based child indices (indices count
all children, as `addUIDRecursive`'s forEach does). -/
def subtreeAt : Node → List Nat → Option Node
  | t, [] => some t
  | .elem _ _ cs, i :: p =>
    match cs[i]? with
    | some c => subtreeAt c p
    | none => none
  | .spacer _, _ :: _ => none

/-- The uid attribute of the node reached by a child-index path. -/
def uidAt (t : Node) (p : List Nat) : Option String :=
  (subtreeAt t p).bind rootUid

/-- The string the tagger appends along a child-index path: the decimal
representations of the indices, concatenated with no separator. -/
def pathString : List Nat → String
  | [] => ""
  | i :: p => toString i ++ pathString p

mutual

/-- `true` when every node of the subtree has at most 10 children, so that
every child index the tagger stringifies is a single decimal digit. -/
def narrowB : Node → Bool
  | .elem _ _ cs => decide (cs.length ≤ 10) && narrowList cs
  | .spacer _ => true

/-- `narrowB` over a child list. -/
def narrowList : List Node → Bool
  | [] => true
  | c :: cs => narrowB c && narrowList cs

end

/-- The decimal digit character of `n < 10`. -/
def digitChar (n : Nat) : Char := Char.ofNat (48 + n)

/-- A tree on which the tagger's path identifiers collide: the root has
eleven children (indices 0..10), and child index 1 has one child of its
own.  The eleventh root child gets uid `"0" ++ "10" = "010"` and child
`[1, 0]` gets uid `"0" ++ "1" ++ "0" = "010"` as well. -/
def wideTree : Node :=
  .elem 0 none
    [.elem 1 none [], .elem 2 none [.elem 20 none []], .elem 3 none [],
     .elem 4 none [], .elem 5 none [], .elem 6 none [], .elem 7 none [],
     .elem 8 none [], .elem 9 none [], .elem 10 none [], .elem 11 none []]

mutual

/-- `SIns h t t'` — the tree `t'` is `t` with one spacer of height `h`
inserted at some position among the children of some element. -/
inductive SIns (h : Int) : Node → Node → Prop where
  | elem (id : Nat) (u : Option String) {cs cs' : List Node} :
      SInsList h cs cs' → SIns h (.elem id u cs) (.elem id u cs')

/-- `SInsList h cs cs'` — the sibling list `cs'` is `cs` with one spacer of
height `h` inserted at some position (possibly inside a descendant). -/
inductive SInsList (h : Int) : List Node → List Node → Prop where
  | front (cs : List Node) : SInsList h cs (.spacer h :: cs)
  | skip (c : Node) {cs cs' : List Node} :
      SInsList h cs cs' → SInsList h (c :: cs) (c :: cs')
  | descend {c c' : Node} (cs : List Node) :
      SIns h c c' → SInsList h (c :: cs) (c' :: cs)

end

/-- C5: the Break-Rule Resolver merges its three stages by pointwise
disjunction — the result equals the pointwise OR of the mode/legacy
initialisation, the css-mode computed styles, and the explicit selections —
and it is monotone: enabling additional sources (more modes, more
memberships) never clears a `before`/`after`/`avoid` flag set by another
source. -/
theorem resolveRules_or_monotone :
    (∀ m leg st b a v, resolveRules m leg st b a v =
      Rules.orr (modeSource m leg) (Rules.orr (cssSource m st) (selSource b a v))) ∧
    (∀ m m' leg leg' st b a v b' a' v', Mode.le m m' →
      (leg = true → leg' = true) → (b = true → b' = true) →
      (a = true → a' = true) → (v = true → v' = true) →
      Rules.le (resolveRules m leg st b a v) (resolveRules m' leg' st b' a' v')) := by
  constructor
  · intro m leg st b a v
    unfold resolveRules modeSource cssSource selSource Rules.orr
    cases hc : m.css <;> simp [Bool.or_assoc]
  · intro m m' leg leg' st b a v b' a' v' hm hleg hb ha hv
    obtain ⟨hAvoid, hCss, hLegacy⟩ := hm
    unfold resolveRules Rules.le
    refine ⟨?_, ?_, ?_⟩ <;>
      cases hc : m.css <;> cases hc' : m'.css <;>
        simp_all [Bool.or_eq_true, Bool.and_eq_true] <;> tauto

/-- Closed witness for `resolveRules_or_monotone`: enabling `legacy` on top
of `css` preserves the css-set `after` flag of a concrete element. -/
theorem resolveRules_or_monotone_witness :
    Mode.le (modeOf ["css"]) (modeOf ["css", "legacy"]) ∧
      Rules.le
        (resolveRules (modeOf ["css"]) false ⟨"", "", "always", "", "", ""⟩ false false false)
        (resolveRules (modeOf ["css", "legacy"]) true ⟨"", "", "always", "", "", ""⟩ false false false) :=
  ⟨by unfold Mode.le; decide,
    resolveRules_or_monotone.2 (modeOf ["css"]) (modeOf ["css", "legacy"])
      false true ⟨"", "", "always", "", "", ""⟩ false false false false false false
      (by unfold Mode.le; decide) (by decide) (by decide) (by decide) (by decide)⟩

/-- C4: for a node with `avoid = true` and `before = false` and a positive
page height, the avoid-resolution step upgrades `before` to `true` exactly
when `floor(top / pageH) ≠ floor((bottom - 1) / pageH)` and
`|bottom - top| / pageH ≤ 1`; in particular an element strictly taller than
one page is never upgraded (the rules are left unchanged). -/
theorem avoidResolve_upgrade (pageH : Int) (r : Rules) (rect : Rect)
    (hH : 0 < pageH) (hav : r.avoid = true) (hbf : r.before = false) :
    ((avoidResolve pageH r rect).before = true ↔
      (Int.fdiv rect.top pageH ≠ Int.fdiv (rect.bottom - 1) pageH ∧
        |((rect.bottom - rect.top : Int) : ℚ)| / (pageH : ℚ) ≤ 1)) ∧
    (pageH < |rect.bottom - rect.top| → avoidResolve pageH r rect = r) := by
  have hq : (0 : ℚ) < (pageH : ℚ) := by exact_mod_cast hH
  have habs : |((rect.bottom - rect.top : Int) : ℚ)| = ((|rect.bottom - rect.top| : Int) : ℚ) := by
    rw [Int.cast_abs]
  have hspan : |((rect.bottom - rect.top : Int) : ℚ)| / (pageH : ℚ) ≤ 1 ↔
      |rect.bottom - rect.top| ≤ pageH := by
    rw [div_le_one hq, habs]
    exact_mod_cast Iff.rfl
  unfold avoidResolve
  rw [hav, hbf]
  simp only [Bool.and_true, Bool.not_false, Bool.and_self, if_true]
  constructor
  · split_ifs with h
    · simp only [eq_self_iff_true, true_iff]
      exact ⟨fun he => h.1 he.symm, h.2⟩
    · rw [hbf]
      simp only [Bool.false_eq_true, false_iff]
      intro ⟨h1, h2⟩
      exact h (⟨fun he => h1 he.symm, h2⟩)
  · intro htall
    split_ifs with h
    · exact absurd (hspan.mp h.2) (not_le.mpr htall)
    · rfl

/-- C1 (failing half): element 1 is resolved with `after = true` and its
`PendingAfter` entry is queued, but every later visited node (element 2,
uid "000") lies inside the owner's subtree (uid "00" is a prefix), and the
walk simply ends: contrary to the claim, the entry does NOT execute at the
end of the walk — the final state still holds the entry with
`fired = false` and the tree contains no spacer at all. -/
theorem pendingAfter_not_flushed_at_end :
    toContainer_pagebreak cfgC1 treeC1 =
      ⟨tagRoot treeC1, [⟨"00", 1, false⟩]⟩ ∧
    spacerHeights (runTree cfgC1 treeC1) = [] := ⟨rfl, rfl⟩

/-- C3: in Scenario 1 (mode `['css']`, one element with
`break-after: always`, page height 1000, element bottom 300) the claim
demands exactly one spacer of height 700 immediately after the element, but
the pass inserts NO spacer: the element's `PendingAfter` entry is queued at
its own visit, no later node outside its subtree is ever visited (it is the
last element), and the engine has no end-of-walk flush, so the entry is
still unfired when the pass returns and the tree is exactly the tagged
input. -/
theorem scenario1_no_spacer_inserted :
    toContainer_pagebreak cfgC3 treeC3 =
      ⟨tagRoot treeC3, [⟨"00", 1, false⟩]⟩ ∧
    spacerHeights (runTree cfgC3 treeC3) = [] := ⟨rfl, rfl⟩

/-- C6: entries due at the same visit run in reverse insertion order.  The
first conjunct: `pendingBreakAfters` returns the due entries most recently
queued first.  The second conjunct runs the full pass on nested
`after`-marked elements 1 (outer, queued first) and 2 (inner, queued
second), both closing at element 4's visit: the inner spacer (height
`1000 - 250 = 750`) is inserted first and sits before the outer spacer in
document order, and the outer spacer's height `950 = 1000 - (300 + 750) % 1000`
shows the outer closure read its rectangle only after the inner spacer had
been inserted. -/
theorem pendingAfters_reverse_order :
    pendingBreakAfters [⟨"00", 1, false⟩, ⟨"000", 2, false⟩] "01" =
      [⟨"000", 2, false⟩, ⟨"00", 1, false⟩] ∧
    toContainer_pagebreak cfgC6 treeC6 =
      ⟨.elem 0 (some "0")
          [.elem 1 (some "00") [.elem 2 (some "000") [], .spacer 750],
           .spacer 950, .elem 4 (some "01") []],
        [⟨"00", 1, true⟩, ⟨"000", 2, true⟩]⟩ := ⟨rfl, rfl⟩

/-- C7: at the visit of an element whose final (avoid-resolved) rules have
`before = true`, the walk extends the tree by exactly one spacer, inserted
immediately before that element, of height
`pxPageHeight - top % pxPageHeight`, where `top` comes from the element's
bounding rectangle read at visit time — i.e. on the tree `flushTree` that
already contains every spacer inserted earlier in the walk, including the
deferred `after` spacers flushed at this very visit.  (Each element occurs
exactly once in the snapshot `visitedOf`, so this happens once per node.) -/
theorem before_spacer_at_visit (cfg : Config) (st : PassState) (i : Nat)
    (uid : String) (hb : (finalRules cfg st i uid).before = true) :
    (pagebreak_loop cfg st (i, uid)).tree =
      insertBeforeElem (flushTree cfg st uid) i
        (Node.spacer (beforePadHeight cfg.pxPageHeight (visitRect cfg st i uid).top)) := by
  unfold pagebreak_loop
  simp [hb]

/-- Closed witness for `before_spacer_at_visit`: element 1 is in the
explicit `before` selection, its rectangle top is 900 with page height
1000, and the example height `1000 - (900 % 1000) = 100` of the claim is
checked. -/
theorem before_spacer_at_visit_witness :
    (finalRules cfgC7 stC7 1 "00").before = true ∧
    (pagebreak_loop cfgC7 stC7 (1, "00")).tree =
      insertBeforeElem (flushTree cfgC7 stC7 "00") 1
        (Node.spacer (beforePadHeight cfgC7.pxPageHeight (visitRect cfgC7 stC7 1 "00").top)) ∧
    beforePadHeight 1000 900 = 100 :=
  ⟨rfl, before_spacer_at_visit cfgC7 stC7 1 "00" rfl, by decide⟩

/-- C2 (failing part): on `wideTree` (a root with eleven children) the
tagger's path identifiers are NOT unique and NOT prefix-faithful: the
eleventh root child (path `[10]`) and the first child of the second root
child (path `[1, 0]`) both receive pathId `"010"`, although neither is a
descendant of the other; moreover `"01"`, the pathId of path `[1]`, is a
string-prefix of the pathId of the non-descendant `[10]`. -/
theorem addUID_pathId_collision :
    uidAt (tagRoot wideTree) [10] = some "010" ∧
    uidAt (tagRoot wideTree) [1, 0] = some "010" ∧
    ¬ ([10] : List Nat) <+: [1, 0] ∧ ¬ ([1, 0] : List Nat) <+: [10] ∧
    uidAt (tagRoot wideTree) [1] = some "01" ∧
    ("01" : String).data <+: ("010" : String).data ∧
    ¬ ([1] : List Nat) <+: [10] := by
  refine ⟨by decide, by decide, by decide, by decide, by decide, ?_, by decide⟩
  exact ⟨['0'], by decide⟩

/-- Indexing into the tagger's child recursion: the `i`-th tagged child is
the `i`-th original child tagged with `u ++ toString (k + i)`. -/
theorem addUIDChildren_get (cs : List Node) (u : String) :
    ∀ (k i : Nat), (addUIDChildren cs u k)[i]? =
      (cs[i]?).map (fun c => addUIDRecursive c (u ++ toString (k + i))) := by
  induction cs with
  | nil => intro k i; simp [addUIDChildren]
  | cons c cs ih =>
    intro k i
    cases i with
    | zero => simp [addUIDChildren]
    | succ i =>
      have hk : k + 1 + i = k + (i + 1) := by omega
      simp only [addUIDChildren, List.getElem?_cons_succ, ih (k + 1) i, hk]

/-- Navigating a tagged tree along a path reaches the original node at that
path, tagged with the base uid extended by the stringified indices. -/
theorem subtreeAt_addUID :
    ∀ (p : List Nat) (t : Node) (u : String),
      subtreeAt (addUIDRecursive t u) p =
        (subtreeAt t p).map (fun s => addUIDRecursive s (u ++ pathString p)) := by
  intro p
  induction p with
  | nil =>
    intro t u
    have hu : u ++ pathString [] = u := by
      apply String.ext
      simp [pathString, String.data_append]
    simp [subtreeAt, hu]
  | cons i p ih =>
    intro t u
    cases t with
    | spacer h => simp [addUIDRecursive, subtreeAt]
    | elem id u0 cs =>
      show subtreeAt (.elem id (some u) (addUIDChildren cs u 0)) (i :: p) = _
      have hget := addUIDChildren_get cs u 0 i
      cases hcs : cs[i]? with
      | none =>
        rw [hcs] at hget
        simp [subtreeAt, hget, hcs]
      | some c =>
        rw [hcs] at hget
        have hassoc : u ++ toString i ++ pathString p =
            u ++ (toString i ++ pathString p) := String.append_assoc u _ _
        have hred : subtreeAt (.elem id (some u) (addUIDChildren cs u 0)) (i :: p) =
            subtreeAt (addUIDRecursive c (u ++ toString i)) p := by
          simp [subtreeAt, hget, hcs]
        rw [hred, ih c (u ++ toString i)]
        simp only [pathString, hassoc]
        simp [subtreeAt, hcs]

/-- A defined path identifier in a tagged tree comes from an element of the
original tree and equals the base uid followed by the stringified index
path. -/
theorem uidAt_addUID (t : Node) (u : String) (p : List Nat) (w : String)
    (h : uidAt (addUIDRecursive t u) p = some w) :
    (∃ id u0 cs, subtreeAt t p = some (.elem id u0 cs)) ∧
      w = u ++ pathString p := by
  unfold uidAt at h
  rw [subtreeAt_addUID p t u] at h
  cases hs : subtreeAt t p with
  | none => rw [hs] at h; simp at h
  | some s =>
    rw [hs] at h
    cases s with
    | spacer h0 => simp [addUIDRecursive, rootUid] at h
    | elem id u0 cs =>
      simp [addUIDRecursive, rootUid] at h
      exact ⟨⟨id, u0, cs, rfl⟩, h.symm⟩

/-- Every member of a narrow child list is narrow. -/
theorem narrowList_get :
    ∀ (cs : List Node) (i : Nat) (c : Node), narrowList cs = true →
      cs[i]? = some c → narrowB c = true := by
  intro cs
  induction cs with
  | nil => intro i c _ h; simp at h
  | cons d cs ih =>
    intro i c hn h
    have hn' : narrowB d = true ∧ narrowList cs = true := by
      simpa [narrowList, Bool.and_eq_true] using hn
    cases i with
    | zero => simp at h; rw [← h]; exact hn'.1
    | succ i => exact ih i c hn'.2 (by simpa using h)

/-- In a narrow tree, every index of a valid child-index path is at most 9
(each parent has at most 10 children). -/
theorem valid_path_digits :
    ∀ (p : List Nat) (t : Node), narrowB t = true →
      (subtreeAt t p).isSome → ∀ i ∈ p, i ≤ 9 := by
  intro p
  induction p with
  | nil => intro t _ _ i hi; simp at hi
  | cons j p ih =>
    intro t hn hsome i hi
    cases t with
    | spacer h => simp [subtreeAt] at hsome
    | elem id u0 cs =>
      have hn' : cs.length ≤ 10 ∧ narrowList cs = true := by
        have := hn
        simp only [narrowB, Bool.and_eq_true, decide_eq_true_eq] at this
        exact this
      cases hcs : cs[j]? with
      | none => rw [subtreeAt, hcs] at hsome; simp at hsome
      | some c =>
        rw [subtreeAt, hcs] at hsome
        have hj : j < cs.length := by
          by_contra hge
          rw [List.getElem?_eq_none (by omega)] at hcs
          exact Option.noConfusion hcs
        rcases List.mem_cons.mp hi with hij | hip
        · omega
        · exact ih c (narrowList_get cs j c hn'.2 hcs) hsome i hip

/-- Single-digit decimal stringification: for `n ≤ 9`, `toString n` is the
one-character string of `n`'s digit. -/
theorem toString_digit (n : Nat) (hn : n ≤ 9) :
    (toString n).data = [digitChar n] := by
  interval_cases n <;> decide

/-- For a path of single-digit indices, the tagger's appended string is the
digit character sequence of the path. -/
theorem pathString_data :
    ∀ (p : List Nat), (∀ i ∈ p, i ≤ 9) →
      (pathString p).data = p.map digitChar := by
  intro p
  induction p with
  | nil => intro _; decide
  | cons i p ih =>
    intro hb
    have hi : i ≤ 9 := hb i (List.mem_cons_self i p)
    have hp : ∀ j ∈ p, j ≤ 9 := fun j hj => hb j (List.mem_cons_of_mem i hj)
    simp only [pathString, String.data_append, toString_digit i hi, ih hp,
      List.map_cons, List.cons_append, List.nil_append]

/-- Distinct decimal digits have distinct characters. -/
theorem digitChar_inj (i j : Nat) (hi : i ≤ 9) (hj : j ≤ 9) :
    digitChar i = digitChar j → i = j := by
  interval_cases i <;> interval_cases j <;> revert hi <;> decide

/-- Digit-character encoding reflects the list-prefix order on single-digit
paths. -/
theorem map_digit_reflects :
    ∀ (p q : List Nat), (∀ i ∈ p, i ≤ 9) → (∀ i ∈ q, i ≤ 9) →
      p.map digitChar <+: q.map digitChar → p <+: q := by
  intro p
  induction p with
  | nil => intro q _ _ _; exact List.nil_prefix
  | cons i p ih =>
    intro q hp hq h
    cases q with
    | nil =>
      exfalso
      have := List.prefix_nil.mp h
      simp at this
    | cons j q =>
      simp only [List.map_cons] at h
      obtain ⟨hij, htail⟩ := List.cons_prefix_cons.mp h
      have hi : i ≤ 9 := hp i (List.mem_cons_self i p)
      have hj : j ≤ 9 := hq j (List.mem_cons_self j q)
      have hij' : i = j := digitChar_inj i j hi hj hij
      subst hij'
      exact List.cons_prefix_cons.mpr ⟨rfl,
        ih q (fun a ha => hp a (List.mem_cons_of_mem i ha))
          (fun a ha => hq a (List.mem_cons_of_mem i ha)) htail⟩

/-- Digit-character encoding is injective on single-digit paths. -/
theorem map_digit_inj (p q : List Nat) (hp : ∀ i ∈ p, i ≤ 9)
    (hq : ∀ i ∈ q, i ≤ 9) (h : p.map digitChar = q.map digitChar) : p = q := by
  have hlen : p.length = q.length := by
    have := congrArg List.length h
    simpa using this
  exact List.IsPrefix.eq_of_length (map_digit_reflects p q hp hq (h ▸ List.prefix_rfl)) hlen

/-- C2 (amended): for every tree in which each node has at most 10 children
(so each child index stringifies to a single digit), the Identifier Tagger
(root `"0"`, child `parentPathId ++ childIndex`) assigns pathIds that are
unique, are strict string-prefixes of every descendant's pathId, and are
string-prefixes of no non-descendant's pathId.  (Without the 10-children
bound this fails: see the collision on `wideTree`.) -/
theorem addUID_pathId_unique_prefix (t : Node) (hn : narrowB t = true)
    (p q : List Nat) (u v : String)
    (hp : uidAt (tagRoot t) p = some u) (hq : uidAt (tagRoot t) q = some v) :
    (u = v → p = q) ∧
    (p <+: q → p ≠ q → u.data <+: v.data ∧ u ≠ v) ∧
    (¬ p <+: q → ¬ u.data <+: v.data) := by
  obtain ⟨⟨idp, up, csp, hsp⟩, rfl⟩ := uidAt_addUID t "0" p u hp
  obtain ⟨⟨idq, uq, csq, hsq⟩, rfl⟩ := uidAt_addUID t "0" q v hq
  have hpd : ∀ i ∈ p, i ≤ 9 :=
    valid_path_digits p t hn (by rw [hsp]; rfl)
  have hqd : ∀ i ∈ q, i ≤ 9 :=
    valid_path_digits q t hn (by rw [hsq]; rfl)
  have hud : ("0" ++ pathString p).data = '0' :: p.map digitChar := by
    rw [String.data_append, pathString_data p hpd]; rfl
  have hvd : ("0" ++ pathString q).data = '0' :: q.map digitChar := by
    rw [String.data_append, pathString_data q hqd]; rfl
  have huniq : "0" ++ pathString p = "0" ++ pathString q → p = q := by
    intro he
    have hdata := congrArg String.data he
    rw [hud, hvd] at hdata
    exact map_digit_inj p q hpd hqd (List.cons.injEq .. ▸ hdata).2
  refine ⟨huniq, ?_, ?_⟩
  · intro hpre hne
    constructor
    · rw [hud, hvd]
      exact List.cons_prefix_cons.mpr ⟨rfl, hpre.map digitChar⟩
    · intro he
      exact hne (huniq he)
  · intro hnp hd
    rw [hud, hvd] at hd
    exact hnp (map_digit_reflects p q hpd hqd (List.cons_prefix_cons.mp hd).2)

/-- Closed witness for `addUID_pathId_unique_prefix`: in the narrow tree
`treeC1`, paths `[0]` (pathId "00") and `[0, 0]` (pathId "000") satisfy
the uniqueness and prefix properties. -/
theorem addUID_pathId_unique_prefix_witness :
    narrowB treeC1 = true ∧
    uidAt (tagRoot treeC1) [0] = some "00" ∧
    uidAt (tagRoot treeC1) [0, 0] = some "000" ∧
    (("00" : String) = "000" → ([0] : List Nat) = [0, 0]) ∧
    (([0] : List Nat) <+: [0, 0] → ([0] : List Nat) ≠ [0, 0] →
      ("00" : String).data <+: ("000" : String).data ∧ ("00" : String) ≠ "000") ∧
    (¬ ([0] : List Nat) <+: [0, 0] → ¬ ("00" : String).data <+: ("000" : String).data) := by
  have h := addUID_pathId_unique_prefix treeC1 (by decide) [0] [0, 0] "00" "000"
    (by decide) (by decide)
  exact ⟨by decide, by decide, by decide, h.1, h.2.1, h.2.2⟩

/-- Closed witness for `avoidResolve_upgrade`: page height 1000, an
avoid-flagged 400px element straddling pages 0 and 1 at top 900. -/
theorem avoidResolve_upgrade_witness :
    (0 : Int) < 1000 ∧ (Rules.avoid ⟨false, false, true⟩ = true) ∧
      (Rules.before ⟨false, false, true⟩ = false) ∧
      (((avoidResolve 1000 ⟨false, false, true⟩ ⟨900, 1300⟩).before = true ↔
        (Int.fdiv (900 : Int) 1000 ≠ Int.fdiv ((1300 : Int) - 1) 1000 ∧
          |(((1300 : Int) - 900 : Int) : ℚ)| / ((1000 : Int) : ℚ) ≤ 1)) ∧
      ((1000 : Int) < |(1300 : Int) - 900| →
        avoidResolve 1000 ⟨false, false, true⟩ ⟨900, 1300⟩ = ⟨false, false, true⟩)) :=
  ⟨by decide, rfl, rfl,
    avoidResolve_upgrade 1000 ⟨false, false, true⟩ ⟨900, 1300⟩ (by decide) rfl rfl⟩

mutual

/-- A successful `insB` inserts exactly one spacer of the given height
somewhere in the tree. -/
theorem insB_sins (i : Nat) (h : Int) :
    ∀ (t t' : Node), insB i (.spacer h) t = some t' → SIns h t t'
  | .elem id u cs, t', heq => by
    unfold insB at heq
    cases hcs : insBList i (.spacer h) cs with
    | none => rw [hcs] at heq; simp at heq
    | some cs' =>
      rw [hcs] at heq
      simp at heq
      subst heq
      exact SIns.elem id u (insBList_sins i h cs cs' hcs)
  | .spacer h2, t', heq => by simp [insB] at heq

/-- A successful `insBList` inserts exactly one spacer of the given height
somewhere in the sibling list. -/
theorem insBList_sins (i : Nat) (h : Int) :
    ∀ (cs cs' : List Node), insBList i (.spacer h) cs = some cs' → SInsList h cs cs'
  | [], cs', heq => by simp [insBList] at heq
  | c :: cs, cs', heq => by
    unfold insBList at heq
    by_cases hid : isElemId c i = true
    · rw [if_pos hid] at heq
      simp at heq
      subst heq
      exact SInsList.front (c :: cs)
    · rw [if_neg hid] at heq
      cases hc : insB i (.spacer h) c with
      | some c' =>
        rw [hc] at heq
        simp at heq
        subst heq
        exact SInsList.descend cs (insB_sins i h c c' hc)
      | none =>
        rw [hc] at heq
        cases hcs : insBList i (.spacer h) cs with
        | none => rw [hcs] at heq; simp at heq
        | some cst =>
          rw [hcs] at heq
          simp at heq
          subst heq
          exact SInsList.skip c (insBList_sins i h cs cst hcs)

end

mutual

/-- A successful `insA` inserts exactly one spacer of the given height
somewhere in the tree. -/
theorem insA_sins (i : Nat) (h : Int) :
    ∀ (t t' : Node), insA i (.spacer h) t = some t' → SIns h t t'
  | .elem id u cs, t', heq => by
    unfold insA at heq
    cases hcs : insAList i (.spacer h) cs with
    | none => rw [hcs] at heq; simp at heq
    | some cs' =>
      rw [hcs] at heq
      simp at heq
      subst heq
      exact SIns.elem id u (insAList_sins i h cs cs' hcs)
  | .spacer h2, t', heq => by simp [insA] at heq

/-- A successful `insAList` inserts exactly one spacer of the given height
somewhere in the sibling list. -/
theorem insAList_sins (i : Nat) (h : Int) :
    ∀ (cs cs' : List Node), insAList i (.spacer h) cs = some cs' → SInsList h cs cs'
  | [], cs', heq => by simp [insAList] at heq
  | c :: cs, cs', heq => by
    unfold insAList at heq
    by_cases hid : isElemId c i = true
    · rw [if_pos hid] at heq
      simp at heq
      subst heq
      exact SInsList.skip c (SInsList.front cs)
    · rw [if_neg hid] at heq
      cases hc : insA i (.spacer h) c with
      | some c' =>
        rw [hc] at heq
        simp at heq
        subst heq
        exact SInsList.descend cs (insA_sins i h c c' hc)
      | none =>
        rw [hc] at heq
        cases hcs : insAList i (.spacer h) cs with
        | none => rw [hcs] at heq; simp at heq
        | some cst =>
          rw [hcs] at heq
          simp at heq
          subst heq
          exact SInsList.skip c (insAList_sins i h cs cst hcs)

end

mutual

/-- Inserting a spacer does not change the spacer-erased tree. -/
theorem sins_strip (h : Int) :
    ∀ (t t' : Node), SIns h t t' → stripSpacers t' = stripSpacers t
  | _, _, .elem id u hl => by
    simp only [stripSpacers]
    rw [sinsList_strip h _ _ hl]

/-- Inserting a spacer does not change the spacer-erased sibling list. -/
theorem sinsList_strip (h : Int) :
    ∀ (cs cs' : List Node), SInsList h cs cs' → stripList cs' = stripList cs
  | _, _, .front cs => by
    simp only [stripList]
  | _, _, .skip c hrest => by
    cases c with
    | spacer h2 =>
      simp only [stripList]
      exact sinsList_strip h _ _ hrest
    | elem id u gcs =>
      simp only [stripList]
      rw [sinsList_strip h _ _ hrest]
  | _, _, .descend cs hnode => by
    cases hnode with
    | elem id u hl =>
      simp only [stripList]
      rw [sinsList_strip h _ _ hl]

end

mutual

/-- Inserting a spacer increases the spacer count by exactly one. -/
theorem sins_count (h : Int) :
    ∀ (t t' : Node), SIns h t t' → spacerCount t' = spacerCount t + 1
  | _, _, .elem id u hl => by
    simp only [spacerCount]
    exact sinsList_count h _ _ hl

/-- Inserting a spacer increases the sibling-list spacer count by one. -/
theorem sinsList_count (h : Int) :
    ∀ (cs cs' : List Node), SInsList h cs cs' →
      spacerCountList cs' = spacerCountList cs + 1
  | _, _, .front cs => by
    simp only [spacerCountList, spacerCount]
    omega
  | _, _, .skip c hrest => by
    simp only [spacerCountList]
    rw [sinsList_count h _ _ hrest]
    omega
  | _, _, .descend cs hnode => by
    simp only [spacerCountList]
    rw [sins_count h _ _ hnode]
    omega

end

mutual

/-- Every spacer height present after an insertion is either the inserted
height or was already present. -/
theorem sins_mem (h : Int) :
    ∀ (t t' : Node), SIns h t t' →
      ∀ x ∈ spacerHeights t', x = h ∨ x ∈ spacerHeights t
  | _, _, .elem id u hl => by
    simp only [spacerHeights]
    exact sinsList_mem h _ _ hl

/-- Sibling-list version of `sins_mem`. -/
theorem sinsList_mem (h : Int) :
    ∀ (cs cs' : List Node), SInsList h cs cs' →
      ∀ x ∈ spacerHeightsList cs', x = h ∨ x ∈ spacerHeightsList cs
  | _, _, .front cs => by
    intro x hx
    have hx' : x ∈ spacerHeights (.spacer h) ++ spacerHeightsList cs := by
      simpa only [spacerHeightsList] using hx
    rcases List.mem_append.mp hx' with h1 | h2
    · left
      simpa [spacerHeights] using h1
    · right; exact h2
  | _, _, @SInsList.skip _ c cs cs' hrest => by
    intro x hx
    have hx' : x ∈ spacerHeights c ++ spacerHeightsList cs' := by
      simpa only [spacerHeightsList] using hx
    have hgoal : spacerHeightsList (c :: cs) = spacerHeights c ++ spacerHeightsList cs := by
      simp only [spacerHeightsList]
    rw [hgoal]
    rcases List.mem_append.mp hx' with h1 | h2
    · right
      exact List.mem_append.mpr (Or.inl h1)
    · rcases sinsList_mem h cs cs' hrest x h2 with h3 | h4
      · left; exact h3
      · right; exact List.mem_append.mpr (Or.inr h4)
  | _, _, @SInsList.descend _ c c' cs hnode => by
    intro x hx
    have hx' : x ∈ spacerHeights c' ++ spacerHeightsList cs := by
      simpa only [spacerHeightsList] using hx
    have hgoal : spacerHeightsList (c :: cs) = spacerHeights c ++ spacerHeightsList cs := by
      simp only [spacerHeightsList]
    rw [hgoal]
    rcases List.mem_append.mp hx' with h1 | h2
    · rcases sins_mem h c c' hnode x h1 with h3 | h4
      · left; exact h3
      · right; exact List.mem_append.mpr (Or.inl h4)
    · right; exact List.mem_append.mpr (Or.inr h2)

end

/-- `insertBeforeElem` with a spacer either leaves the tree unchanged (no
matching element) or performs one spacer insertion. -/
theorem insertBeforeElem_cases (t : Node) (i : Nat) (h : Int) :
    insertBeforeElem t i (.spacer h) = t ∨
      SIns h t (insertBeforeElem t i (.spacer h)) := by
  unfold insertBeforeElem
  cases hi : insB i (.spacer h) t with
  | none => left; rfl
  | some t' =>
    right
    show SIns h t ((some t').getD t)
    exact insB_sins i h t t' hi

/-- `insertAfterElem` with a spacer either leaves the tree unchanged (no
matching element) or performs one spacer insertion. -/
theorem insertAfterElem_cases (t : Node) (i : Nat) (h : Int) :
    insertAfterElem t i (.spacer h) = t ∨
      SIns h t (insertAfterElem t i (.spacer h)) := by
  unfold insertAfterElem
  cases hi : insA i (.spacer h) t with
  | none => left; rfl
  | some t' =>
    right
    show SIns h t ((some t').getD t)
    exact insA_sins i h t t' hi

/-- Erasing spacers commutes with `insertBeforeElem` of a spacer. -/
theorem strip_insertBeforeElem (t : Node) (i : Nat) (h : Int) :
    stripSpacers (insertBeforeElem t i (.spacer h)) = stripSpacers t := by
  rcases insertBeforeElem_cases t i h with he | hs
  · rw [he]
  · exact sins_strip h _ _ hs

/-- Erasing spacers commutes with `insertAfterElem` of a spacer. -/
theorem strip_insertAfterElem (t : Node) (i : Nat) (h : Int) :
    stripSpacers (insertAfterElem t i (.spacer h)) = stripSpacers t := by
  rcases insertAfterElem_cases t i h with he | hs
  · rw [he]
  · exact sins_strip h _ _ hs

/-- Flushing a list of pending break-afters (each inserting one spacer)
does not change the spacer-erased tree. -/
theorem strip_flush_fold (cfg : Config) :
    ∀ (l : List Pending) (t : Node),
      stripSpacers (l.foldl
        (fun t p => insertAfterElem t p.owner
          (Node.spacer (afterPadHeight cfg.pxPageHeight (cfg.geom t p.owner).bottom))) t) =
      stripSpacers t := by
  intro l
  induction l with
  | nil => intro t; simp
  | cons p l ih =>
    intro t
    rw [List.foldl_cons, ih, strip_insertAfterElem]

/-- `flushTree` does not change the spacer-erased tree. -/
theorem strip_flushTree (cfg : Config) (st : PassState) (uid : String) :
    stripSpacers (flushTree cfg st uid) = stripSpacers st.tree := by
  unfold flushTree
  exact strip_flush_fold cfg _ st.tree

/-- One step of the walk does not change the spacer-erased tree. -/
theorem strip_loop (cfg : Config) (st : PassState) (v : Nat × String) :
    stripSpacers (pagebreak_loop cfg st v).tree = stripSpacers st.tree := by
  unfold pagebreak_loop
  by_cases hb : (finalRules cfg st v.1 v.2).before = true
  · simp only [hb, if_true]
    rw [strip_insertBeforeElem, strip_flushTree]
  · simp only [hb, if_false]
    exact strip_flushTree cfg st v.2

/-- The whole walk does not change the spacer-erased tree. -/
theorem strip_walk (cfg : Config) :
    ∀ (l : List (Nat × String)) (st : PassState),
      stripSpacers (List.foldl (pagebreak_loop cfg) st l).tree = stripSpacers st.tree := by
  intro l
  induction l with
  | nil => intro st; simp
  | cons v l ih =>
    intro st
    rw [List.foldl_cons, ih, strip_loop]

/-- A spacer-free sibling list is unchanged by spacer erasure. -/
theorem spacerFreeList_strip :
    ∀ (cs : List Node), spacerFreeList cs = true → stripList cs = cs
  | [], _ => by simp [stripList]
  | .spacer h2 :: cs, hf => by simp [spacerFreeList, spacerFreeB] at hf
  | .elem id u gcs :: cs, hf => by
    have h1 : spacerFreeB (.elem id u gcs) = true ∧ spacerFreeList cs = true := by
      simpa [spacerFreeList, Bool.and_eq_true] using hf
    have h2 : spacerFreeList gcs = true := by
      simpa [spacerFreeB] using h1.1
    simp only [stripList]
    rw [spacerFreeList_strip gcs h2, spacerFreeList_strip cs h1.2]

/-- A spacer-free tree is unchanged by spacer erasure. -/
theorem spacerFree_strip (t : Node) (hf : spacerFreeB t = true) :
    stripSpacers t = t := by
  cases t with
  | spacer h => simp [spacerFreeB] at hf
  | elem id u cs =>
    simp only [stripSpacers]
    rw [spacerFreeList_strip cs (by simpa [spacerFreeB] using hf)]

mutual

/-- The tagger inserts no spacer and removes none. -/
theorem spacerFree_addUID :
    ∀ (t : Node) (u : String),
      spacerFreeB (addUIDRecursive t u) = spacerFreeB t
  | .elem id u0 cs, u => by
    simp only [addUIDRecursive, spacerFreeB]
    exact spacerFree_addUIDChildren cs u 0
  | .spacer h, u => by simp [addUIDRecursive]

/-- Child-list version of `spacerFree_addUID`. -/
theorem spacerFree_addUIDChildren :
    ∀ (cs : List Node) (u : String) (k : Nat),
      spacerFreeList (addUIDChildren cs u k) = spacerFreeList cs
  | [], _, _ => by simp [addUIDChildren]
  | c :: cs, u, k => by
    simp only [addUIDChildren, spacerFreeList]
    rw [spacerFree_addUID c _, spacerFree_addUIDChildren cs u (k + 1)]

end

mutual

/-- The tagger touches only uid attributes: erasing uids after tagging
gives the uid-erased original. -/
theorem eraseUids_addUID :
    ∀ (t : Node) (u : String), eraseUids (addUIDRecursive t u) = eraseUids t
  | .elem id u0 cs, u => by
    simp only [addUIDRecursive, eraseUids]
    rw [eraseUids_addUIDChildren cs u 0]
  | .spacer h, u => by simp [addUIDRecursive]

/-- Child-list version of `eraseUids_addUID`. -/
theorem eraseUids_addUIDChildren :
    ∀ (cs : List Node) (u : String) (k : Nat),
      eraseUidsList (addUIDChildren cs u k) = eraseUidsList cs
  | [], _, _ => by simp [addUIDChildren, eraseUidsList]
  | c :: cs, u, k => by
    simp only [addUIDChildren, eraseUidsList]
    rw [eraseUids_addUID c _, eraseUids_addUIDChildren cs u (k + 1)]

end

/-- C8 (amended): a render pass on a spacer-free container keeps every
pre-existing node, in unchanged relative document order, and its only tree
mutations are the insertion of spacer elements and the assignment of `uid`
attributes by the Identifier Tagger: erasing the inserted spacers from the
result gives exactly the uid-tagged input, and the tagging itself changes
nothing but uid attributes. -/
theorem pass_inserts_only_spacers_and_uids (cfg : Config) (t : Node)
    (hsf : spacerFreeB t = true) :
    stripSpacers (runTree cfg t) = tagRoot t ∧
      eraseUids (tagRoot t) = eraseUids t := by
  constructor
  · unfold runTree toContainer_pagebreak
    rw [strip_walk cfg _ ⟨tagRoot t, []⟩]
    exact spacerFree_strip _ (by rw [tagRoot, spacerFree_addUID]; exact hsf)
  · exact eraseUids_addUID t "0"

/-- Closed witness for `pass_inserts_only_spacers_and_uids` on a concrete
spacer-free two-node container. -/
theorem pass_inserts_only_spacers_and_uids_witness :
    spacerFreeB treeC3 = true ∧
      (stripSpacers (runTree cfgC8 treeC3) = tagRoot treeC3 ∧
        eraseUids (tagRoot treeC3) = eraseUids treeC3) :=
  ⟨by decide, pass_inserts_only_spacers_and_uids cfgC8 treeC3 (by decide)⟩

/-- C8 (failing part): the claim says the pass's ONLY observable mutation is
spacer insertion, but the pass also writes a `uid` attribute on every
pre-existing element (`addUIDRecursive`, lines 54-63): even after stripping
every spacer from the result of a pass that inserts no spacer at all, the
tree differs from the input — the root now carries `uid = "0"`. -/
theorem pass_mutates_uid_attributes :
    stripSpacers (runTree cfgC8 treeC1) ≠ treeC1 := by
  intro h
  have h2 : rootUid (stripSpacers (runTree cfgC8 treeC1)) = rootUid treeC1 :=
    congrArg rootUid h
  have h3 : rootUid (stripSpacers (runTree cfgC8 treeC1)) = some "0" := by decide
  have h4 : rootUid treeC1 = none := by decide
  rw [h3, h4] at h2
  exact Option.noConfusion h2

/-- Inserting before an element adds at most one spacer. -/
theorem count_insertBeforeElem (t : Node) (i : Nat) (h : Int) :
    spacerCount (insertBeforeElem t i (.spacer h)) ≤ spacerCount t + 1 := by
  rcases insertBeforeElem_cases t i h with he | hs
  · rw [he]; omega
  · rw [sins_count h _ _ hs]

/-- Inserting after an element adds at most one spacer. -/
theorem count_insertAfterElem (t : Node) (i : Nat) (h : Int) :
    spacerCount (insertAfterElem t i (.spacer h)) ≤ spacerCount t + 1 := by
  rcases insertAfterElem_cases t i h with he | hs
  · rw [he]; omega
  · rw [sins_count h _ _ hs]

/-- Flushing a pending list adds at most one spacer per entry. -/
theorem count_flush_fold (cfg : Config) :
    ∀ (l : List Pending) (t : Node),
      spacerCount (l.foldl
        (fun t p => insertAfterElem t p.owner
          (Node.spacer (afterPadHeight cfg.pxPageHeight (cfg.geom t p.owner).bottom))) t) ≤
      spacerCount t + l.length := by
  intro l
  induction l with
  | nil => intro t; simp
  | cons p l ih =>
    intro t
    rw [List.foldl_cons]
    calc spacerCount _ ≤ spacerCount (insertAfterElem t p.owner _) + l.length := ih _
    _ ≤ spacerCount t + 1 + l.length := by
        have := count_insertAfterElem t p.owner
          (afterPadHeight cfg.pxPageHeight (cfg.geom t p.owner).bottom)
        omega
    _ = spacerCount t + (p :: l).length := by simp; omega

/-- Marking the due entries as fired removes exactly the due entries from
the unfired count. -/
theorem flushQueue_count :
    ∀ (q : List Pending) (uid : String),
      countUnfired (flushQueue q uid) + (pendingBreakAfters q uid).length =
        countUnfired q := by
  intro q uid
  induction q with
  | nil => simp [flushQueue, pendingBreakAfters, countUnfired]
  | cons p q ih =>
    simp only [flushQueue, List.map_cons, countUnfired, List.countP_cons,
      pendingBreakAfters, List.filter_cons, List.length_reverse] at *
    cases hf : p.fired <;> cases hsw : jsStartsWith uid p.uid <;>
      simp [hf, hsw] at * <;> omega

/-- Queueing one fresh entry increases the unfired count by one. -/
theorem push_count (q : List Pending) (uid : String) (i : Nat) :
    countUnfired (q ++ [⟨uid, i, false⟩]) = countUnfired q + 1 := by
  simp [countUnfired, List.countP_append, List.countP_cons]

/-- One walk step grows `spacer count + unfired entries` by at most 2: the
flush trades unfired entries one-for-one against inserted spacers, the
`before` branch adds at most one spacer, and the `after` branch queues at
most one entry. -/
theorem loop_measure (cfg : Config) (st : PassState) (v : Nat × String) :
    spacerCount (pagebreak_loop cfg st v).tree +
      countUnfired (pagebreak_loop cfg st v).queue ≤
    spacerCount st.tree + countUnfired st.queue + 2 := by
  unfold pagebreak_loop
  have hT : spacerCount (flushTree cfg st v.2) ≤
      spacerCount st.tree + (pendingBreakAfters st.queue v.2).length := by
    unfold flushTree
    exact count_flush_fold cfg _ st.tree
  have hQ := flushQueue_count st.queue v.2
  have hI := count_insertBeforeElem (flushTree cfg st v.2) v.1
    (beforePadHeight cfg.pxPageHeight (visitRect cfg st v.1 v.2).top)
  have hP := push_count (flushQueue st.queue v.2) v.2 v.1
  cases hb : (finalRules cfg st v.1 v.2).before <;>
    cases ha : (resolvedRules cfg v.1).after <;>
      simp [hb, ha] <;> omega

/-- The walk grows `spacer count + unfired entries` by at most 2 per
visited element. -/
theorem walk_measure (cfg : Config) :
    ∀ (l : List (Nat × String)) (st : PassState),
      spacerCount (List.foldl (pagebreak_loop cfg) st l).tree +
        countUnfired (List.foldl (pagebreak_loop cfg) st l).queue ≤
      spacerCount st.tree + countUnfired st.queue + 2 * l.length := by
  intro l
  induction l with
  | nil => intro st; simp
  | cons v l ih =>
    intro st
    rw [List.foldl_cons]
    have h1 := ih (pagebreak_loop cfg st v)
    have h2 := loop_measure cfg st v
    simp only [List.length_cons]
    omega

mutual

/-- The tagger does not change the spacer count. -/
theorem spacerCount_addUID :
    ∀ (t : Node) (u : String), spacerCount (addUIDRecursive t u) = spacerCount t
  | .elem id u0 cs, u => by
    simp only [addUIDRecursive, spacerCount]
    exact spacerCount_addUIDChildren cs u 0
  | .spacer h, u => by simp [addUIDRecursive]

/-- Child-list version of `spacerCount_addUID`. -/
theorem spacerCount_addUIDChildren :
    ∀ (cs : List Node) (u : String) (k : Nat),
      spacerCountList (addUIDChildren cs u k) = spacerCountList cs
  | [], _, _ => by simp [addUIDChildren]
  | c :: cs, u, k => by
    simp only [addUIDChildren, spacerCountList]
    rw [spacerCount_addUID c _, spacerCount_addUIDChildren cs u (k + 1)]

end

mutual

/-- The tagger does not change the element ids, in document order. -/
theorem elemsIds_addUID :
    ∀ (t : Node) (u : String),
      (elemsOf (addUIDRecursive t u)).map Prod.fst = (elemsOf t).map Prod.fst
  | .elem id u0 cs, u => by
    simp only [addUIDRecursive, elemsOf, List.map_cons]
    rw [elemsIds_addUIDChildren cs u 0]
  | .spacer h, u => by simp [addUIDRecursive]

/-- Child-list version of `elemsIds_addUID`. -/
theorem elemsIds_addUIDChildren :
    ∀ (cs : List Node) (u : String) (k : Nat),
      (elemsOfList (addUIDChildren cs u k)).map Prod.fst =
        (elemsOfList cs).map Prod.fst
  | [], _, _ => by simp [addUIDChildren]
  | c :: cs, u, k => by
    simp only [addUIDChildren, elemsOfList, List.map_append]
    rw [elemsIds_addUID c _, elemsIds_addUIDChildren cs u (k + 1)]

end

/-- The walked elements of a node are among the node's elements. -/
theorem visitedOf_sub_elemsOf (t : Node) :
    ∀ v ∈ visitedOf t, v ∈ elemsOf t := by
  cases t with
  | spacer h => intro v hv; simp [visitedOf] at hv
  | elem id u cs =>
    intro v hv
    have hv' : v ∈ elemsOfList cs := by simpa [visitedOf] using hv
    simp only [elemsOf]
    exact List.mem_cons_of_mem _ hv'

/-- C9: the walk's element list is a snapshot taken from the container
before any insertion — every visited entry is one of the container's
pre-existing elements (so the spacers inserted during the pass, which are
not elements of the input, are never visited and never get a rule set) —
and consequently the pass creates at most two spacers per pre-existing
element: one `before` spacer and one deferred `after` spacer each. -/
theorem walk_snapshot_spacer_bound (cfg : Config) (t : Node) :
    (∀ v ∈ visitedOf (tagRoot t), v.1 ∈ (elemsOf t).map Prod.fst) ∧
    spacerCount (runTree cfg t) ≤
      spacerCount t + 2 * (visitedOf (tagRoot t)).length := by
  constructor
  · intro v hv
    have h1 : v ∈ elemsOf (tagRoot t) := visitedOf_sub_elemsOf (tagRoot t) v hv
    have h2 : v.1 ∈ (elemsOf (tagRoot t)).map Prod.fst :=
      List.mem_map_of_mem Prod.fst h1
    rw [tagRoot, elemsIds_addUID] at h2
    exact h2
  · unfold runTree toContainer_pagebreak
    have h1 := walk_measure cfg (visitedOf (tagRoot t)) ⟨tagRoot t, []⟩
    dsimp only at h1
    have h2 : spacerCount (tagRoot t) = spacerCount t := by
      rw [tagRoot, spacerCount_addUID]
    have h3 : countUnfired ([] : List Pending) = 0 := by simp [countUnfired]
    omega

/-- Closed witness for `walk_snapshot_spacer_bound` on the C6 scenario:
element 1 is a visited pre-existing element, and the pass (which inserts
two spacers) respects the bound of two spacers per visited element. -/
theorem walk_snapshot_spacer_bound_witness :
    (1, "00") ∈ visitedOf (tagRoot treeC6) ∧
    (1 : Nat) ∈ (elemsOf treeC6).map Prod.fst ∧
    spacerCount (runTree cfgC6 treeC6) ≤
      spacerCount treeC6 + 2 * (visitedOf (tagRoot treeC6)).length :=
  ⟨by decide,
    (walk_snapshot_spacer_bound cfgC6 treeC6).1 (1, "00") (by decide),
    (walk_snapshot_spacer_bound cfgC6 treeC6).2⟩

/-- For a positive page height and a nonnegative coordinate, the pad height
`pxPageHeight - x % pxPageHeight` lies in `(0, pxPageHeight]`. -/
theorem padHeight_range (pageH x : Int) (hH : 0 < pageH) (hx : 0 ≤ x) :
    0 < pageH - Int.tmod x pageH ∧ pageH - Int.tmod x pageH ≤ pageH := by
  have h1 : 0 ≤ Int.tmod x pageH := Int.tmod_nonneg pageH hx
  have h2 : Int.tmod x pageH < pageH := Int.tmod_lt_of_pos x hH
  omega

/-- Every spacer height after a `before` insertion is the new pad height or
an old height. -/
theorem mem_insertBeforeElem (t : Node) (i : Nat) (h : Int) :
    ∀ x ∈ spacerHeights (insertBeforeElem t i (.spacer h)),
      x = h ∨ x ∈ spacerHeights t := by
  rcases insertBeforeElem_cases t i h with he | hs
  · rw [he]; intro x hx; exact Or.inr hx
  · exact sins_mem h _ _ hs

/-- Every spacer height after an `after` insertion is the new pad height or
an old height. -/
theorem mem_insertAfterElem (t : Node) (i : Nat) (h : Int) :
    ∀ x ∈ spacerHeights (insertAfterElem t i (.spacer h)),
      x = h ∨ x ∈ spacerHeights t := by
  rcases insertAfterElem_cases t i h with he | hs
  · rw [he]; intro x hx; exact Or.inr hx
  · exact sins_mem h _ _ hs

/-- Flushing pending break-afters only adds spacers whose heights are
in-range pad heights. -/
theorem heights_flush_fold (cfg : Config) (hH : 0 < cfg.pxPageHeight)
    (hg : ∀ (tr : Node) (i : Nat), 0 ≤ (cfg.geom tr i).bottom) :
    ∀ (l : List Pending) (t : Node),
      (∀ x ∈ spacerHeights t, 0 < x ∧ x ≤ cfg.pxPageHeight) →
      ∀ x ∈ spacerHeights (l.foldl
        (fun t p => insertAfterElem t p.owner
          (Node.spacer (afterPadHeight cfg.pxPageHeight (cfg.geom t p.owner).bottom))) t),
        0 < x ∧ x ≤ cfg.pxPageHeight := by
  intro l
  induction l with
  | nil => intro t ht x hx; exact ht x hx
  | cons p l ih =>
    intro t ht
    rw [List.foldl_cons]
    apply ih
    intro x hx
    rcases mem_insertAfterElem t p.owner
      (afterPadHeight cfg.pxPageHeight (cfg.geom t p.owner).bottom) x hx with he | hm
    · rw [he]
      exact padHeight_range cfg.pxPageHeight (cfg.geom t p.owner).bottom hH (hg t p.owner)
    · exact ht x hm

/-- One walk step only adds spacers with in-range pad heights. -/
theorem heights_loop (cfg : Config) (hH : 0 < cfg.pxPageHeight)
    (hg : ∀ (tr : Node) (i : Nat),
      0 ≤ (cfg.geom tr i).top ∧ 0 ≤ (cfg.geom tr i).bottom)
    (st : PassState) (v : Nat × String)
    (hinv : ∀ x ∈ spacerHeights st.tree, 0 < x ∧ x ≤ cfg.pxPageHeight) :
    ∀ x ∈ spacerHeights (pagebreak_loop cfg st v).tree,
      0 < x ∧ x ≤ cfg.pxPageHeight := by
  have hflush : ∀ x ∈ spacerHeights (flushTree cfg st v.2),
      0 < x ∧ x ≤ cfg.pxPageHeight := by
    unfold flushTree
    exact heights_flush_fold cfg hH (fun tr i => (hg tr i).2) _ st.tree hinv
  unfold pagebreak_loop
  cases hb : (finalRules cfg st v.1 v.2).before <;> simp only [hb]
  · simp only [Bool.false_eq_true, if_false]
    exact hflush
  · simp only [if_true]
    intro x hx
    rcases mem_insertBeforeElem (flushTree cfg st v.2) v.1
      (beforePadHeight cfg.pxPageHeight (visitRect cfg st v.1 v.2).top) x hx with he | hm
    · rw [he]
      exact padHeight_range cfg.pxPageHeight (visitRect cfg st v.1 v.2).top hH
        (hg (flushTree cfg st v.2) v.1).1
    · exact hflush x hm

/-- The whole walk only adds spacers with in-range pad heights. -/
theorem heights_walk (cfg : Config) (hH : 0 < cfg.pxPageHeight)
    (hg : ∀ (tr : Node) (i : Nat),
      0 ≤ (cfg.geom tr i).top ∧ 0 ≤ (cfg.geom tr i).bottom) :
    ∀ (l : List (Nat × String)) (st : PassState),
      (∀ x ∈ spacerHeights st.tree, 0 < x ∧ x ≤ cfg.pxPageHeight) →
      ∀ x ∈ spacerHeights (List.foldl (pagebreak_loop cfg) st l).tree,
        0 < x ∧ x ≤ cfg.pxPageHeight := by
  intro l
  induction l with
  | nil => intro st h x hx; exact h x hx
  | cons v l ih =>
    intro st h
    rw [List.foldl_cons]
    exact ih (pagebreak_loop cfg st v) (heights_loop cfg hH hg st v h)

/-- A spacer-free sibling list has no spacer heights. -/
theorem spacerFreeList_heights :
    ∀ (cs : List Node), spacerFreeList cs = true → spacerHeightsList cs = []
  | [], _ => by simp [spacerHeightsList]
  | .spacer h2 :: cs, hf => by simp [spacerFreeList, spacerFreeB] at hf
  | .elem id u gcs :: cs, hf => by
    have h1 : spacerFreeB (.elem id u gcs) = true ∧ spacerFreeList cs = true := by
      simpa [spacerFreeList, Bool.and_eq_true] using hf
    have h2 : spacerFreeList gcs = true := by simpa [spacerFreeB] using h1.1
    simp only [spacerHeightsList, spacerHeights]
    rw [spacerFreeList_heights gcs h2, spacerFreeList_heights cs h1.2]
    simp

/-- A spacer-free tree has no spacer heights. -/
theorem spacerFree_heights (t : Node) (hf : spacerFreeB t = true) :
    spacerHeights t = [] := by
  cases t with
  | spacer h => simp [spacerFreeB] at hf
  | elem id u cs =>
    simp only [spacerHeights]
    exact spacerFreeList_heights cs (by simpa [spacerFreeB] using hf)

/-- C10: for a positive page height and a layout oracle producing
nonnegative coordinates, every spacer inserted by a pass over a spacer-free
container has height `0 < h ≤ pxPageHeight`; moreover a node whose
rectangle coordinate is an exact multiple of the page height — already
aligned to a page boundary — gets a pad of height exactly `pxPageHeight`,
for both `before` (top) and `after` (bottom) pads. -/
theorem spacer_heights_in_range (cfg : Config) (t : Node)
    (hH : 0 < cfg.pxPageHeight)
    (hg : ∀ (tr : Node) (i : Nat),
      0 ≤ (cfg.geom tr i).top ∧ 0 ≤ (cfg.geom tr i).bottom)
    (hsf : spacerFreeB t = true) :
    (∀ x ∈ spacerHeights (runTree cfg t), 0 < x ∧ x ≤ cfg.pxPageHeight) ∧
    (∀ x : Int, cfg.pxPageHeight ∣ x →
      beforePadHeight cfg.pxPageHeight x = cfg.pxPageHeight ∧
      afterPadHeight cfg.pxPageHeight x = cfg.pxPageHeight) := by
  constructor
  · unfold runTree toContainer_pagebreak
    apply heights_walk cfg hH hg (visitedOf (tagRoot t)) ⟨tagRoot t, []⟩
    intro x hx
    have h0 : spacerHeights (tagRoot t) = [] := by
      apply spacerFree_heights
      rw [tagRoot, spacerFree_addUID]
      exact hsf
    dsimp only at hx
    rw [h0] at hx
    simp at hx
  · intro x hdvd
    have h0 : Int.tmod x cfg.pxPageHeight = 0 := Int.tmod_eq_zero_of_dvd hdvd
    unfold beforePadHeight afterPadHeight
    rw [h0]
    omega

/-- Closed witness for `spacer_heights_in_range`: page height 1000, an
element with top 300 receives a 700px spacer, in range; and the aligned
coordinate 2000 gives pads of exactly 1000. -/
theorem spacer_heights_in_range_witness :
    (0 : Int) < cfgC10.pxPageHeight ∧
    spacerFreeB treeC3 = true ∧
    (700 : Int) ∈ spacerHeights (runTree cfgC10 treeC3) ∧
    ((0 : Int) < 700 ∧ (700 : Int) ≤ cfgC10.pxPageHeight) ∧
    (beforePadHeight cfgC10.pxPageHeight 2000 = cfgC10.pxPageHeight ∧
      afterPadHeight cfgC10.pxPageHeight 2000 = cfgC10.pxPageHeight) :=
  ⟨by decide, by decide, by decide,
    (spacer_heights_in_range cfgC10 treeC3 (by decide)
      (fun _ _ => ⟨by norm_num [cfgC10], by norm_num [cfgC10]⟩) (by decide)).1 700 (by decide),
    (spacer_heights_in_range cfgC10 treeC3 (by decide)
      (fun _ _ => ⟨by norm_num [cfgC10], by norm_num [cfgC10]⟩) (by decide)).2 2000 ⟨2, by decide⟩⟩
